import Mathlib

/-!
Shallow embedding of `src/backend/main.py` (paddle-ocr-web).

The token cache is the deque `TOKEN_BUFFER` with `maxlen=N_MAX_VALID_TOKENS`,
the job store is the dict `jobs : uid -> Job`, and the batch runner
`convert_multiple_images_to_text` is rendered as the exact ordered sequence of
global-state mutations the Python coroutine performs, so that every
intermediate state an observer (a poller, or a concurrently served request)
could see corresponds to a prefix of that operation list.

Python floats (`time.time()` values, `progress`) are modelled as exact
rationals, Python strings as `String` or `List Char`, `uuid4()` job keys as
`Nat` parameters, and randomness (token generation) as explicit parameters.
A background task dying on an uncaught exception is modelled by the runner
returning the state reached so far paired with `false`.
-/

set_option linter.unusedVariables false

namespace PaddleOcrWeb

/-- `N_MAX_VALID_TOKENS = 20` (main.py line 41). -/
def N_MAX_VALID_TOKENS : Nat := 20

/-- `TOKEN_EXPIRY_SEC = 300` (main.py line 47). -/
def TOKEN_EXPIRY_SEC : ℚ := 300

/-- One entry of `TOKEN_BUFFER`: the dict with keys `token` and `expires`
(main.py lines 73-77, 169). -/
structure TokenEntry where
  token : List Char
  expires : ℚ
deriving DecidableEq, Repr

/-- Python `str.replace(old, new)`: replace every non-overlapping occurrence,
scanning left to right.  (Python inserts `new` everywhere when `old` is empty;
the only call site uses the non-empty pattern "Bearer ", and this model leaves
the string unchanged for an empty pattern.) -/
def replaceAll (p r : List Char) : List Char → List Char
  | [] => []
  | c :: rest =>
    if h : p ≠ [] ∧ p.isPrefixOf (c :: rest) then
      r ++ replaceAll p r ((c :: rest).drop p.length)
    else
      c :: replaceAll p r rest
termination_by l => l.length
decreasing_by
  · have hp : 0 < p.length := List.length_pos.mpr h.1
    simp only [List.length_drop, List.length_cons]
    omega
  · simp

/-- The scheme tag stripped by `verify_token` (main.py line 87). -/
def bearerMarker : List Char := "Bearer ".toList

/-- `verify_token` (main.py lines 85-98): strip the scheme tag, scan the
buffer for the first entry holding the candidate token, fail 401 when there is
none or when `current_time > expires`; otherwise return `True`.  The two
`HTTPException(401, detail)` raises are modelled as `.error detail`. -/
def verify_token (buffer : List TokenEntry) (current_time : ℚ)
    (authorization : List Char) : Except String Bool :=
  let token := replaceAll bearerMarker [] authorization
  match buffer.find? (fun t => t.token == token) with
  | none => .error "Invalid or rotated token"
  | some valid_token =>
    if current_time > valid_token.expires then .error "Token expired"
    else .ok true

/-- `collections.deque(maxlen=N).append`: keep only the newest
`N_MAX_VALID_TOKENS` entries, silently evicting from the old end.  For
buffers inside the deque invariant (length ≤ maxlen) the drop count is 0 or
1, exactly the deque behaviour. -/
def pushToken (buffer : List TokenEntry) (e : TokenEntry) : List TokenEntry :=
  (buffer ++ [e]).drop (buffer.length + 1 - N_MAX_VALID_TOKENS)

/-- `get_token` (main.py lines 163-171).  The fresh random string from
`secrets.token_urlsafe(32)` and the clock are external inputs, passed as
parameters; the endpoint appends `(token, now + TOKEN_EXPIRY_SEC)` to the
buffer and returns the token. -/
def get_token (buffer : List TokenEntry) (new_token : List Char) (now : ℚ) :
    List TokenEntry × List Char :=
  (pushToken buffer { token := new_token, expires := now + TOKEN_EXPIRY_SEC },
   new_token)

/-- The `Job` dataclass (main.py lines 58-67); `progress` is a Python float,
modelled as ℚ.  The `uid` field lives as the key in the job store. -/
structure Job where
  status : String
  messages : String
  progress : ℚ
  results : List (String × String)
deriving DecidableEq, Repr

/-- Field defaults of `Job()` as created by `run_ocr` (main.py lines 62-66,
198). -/
def Job.init : Job :=
  { status := "processing", messages := "Already started.", progress := 0,
    results := [] }

/-- Dict lookup `jobs.get(uid, None)` / `jobs[uid]` presence test. -/
def lookupJob : List (Nat × Job) → Nat → Option Job
  | [], _ => none
  | (k, j) :: rest, uid => if k = uid then some j else lookupJob rest uid

/-- Replace the binding of `uid` (a field assignment through `jobs[uid]`);
a dict has at most one binding per key, so only the first is replaced. -/
def setJob : List (Nat × Job) → Nat → Job → List (Nat × Job)
  | [], _, _ => []
  | (k, j0) :: rest, uid, j =>
    if k = uid then (k, j) :: rest else (k, j0) :: setJob rest uid j

/-- `del jobs[uid]` (main.py line 227). -/
def eraseJob : List (Nat × Job) → Nat → List (Nat × Job)
  | [], _ => []
  | (k, j) :: rest, uid => if k = uid then rest else (k, j) :: eraseJob rest uid

/-- Global mutable state the batch runner touches: the `jobs` dict and the
set of staged files under `UPLOAD_DIR` (paths as strings). -/
structure ServerState where
  jobs : List (Nat × Job)
  files : List String
deriving DecidableEq, Repr

/-- A page dict returned by `ocr_engine.predict`; only `rec_texts` is read. -/
structure OcrPage where
  rec_texts : List String
deriving DecidableEq, Repr

/-- Outcome of the external `ocr_engine.predict(path)` call: it raises, or
returns a list of page dicts. -/
inductive OcrOutcome where
  | err : OcrOutcome
  | ok : List OcrPage → OcrOutcome
deriving DecidableEq, Repr

/-- `_convert_image_to_text` (main.py lines 101-119) as a function of the
engine's outcome on the staged file: an exception yields the fixed failure
placeholder, an empty result list yields the empty string, and otherwise the
first page's `rec_texts` are joined with newlines (a longer list only warns). -/
def convert_image_to_text : OcrOutcome → String
  | .err => "(Failed. Please reduce the image size.)"
  | .ok [] => ""
  | .ok (page :: _) => String.intercalate "\n" page.rec_texts

/-- One element of `file_mappings` — `(remote_filename, local_path)` — plus
the external OCR engine's behaviour on that staged file. -/
structure FileItem where
  name : String
  path : String
  outcome : OcrOutcome
deriving DecidableEq, Repr

def itemResult (it : FileItem) : String × String :=
  (it.name, convert_image_to_text it.outcome)

/-- The individual global-state mutations `convert_multiple_images_to_text`
performs, in program order. -/
inductive BatchOp where
  | setMessage : String → BatchOp
  | addProgress : ℚ → BatchOp
  | appendResult : String × String → BatchOp
  | setProgress : ℚ → BatchOp
  | setStatus : String → BatchOp
  | unlink : String → BatchOp
deriving DecidableEq, Repr

/-- Whether the op mutates `jobs[uid]` (as opposed to the filesystem). -/
def BatchOp.isJobOp : BatchOp → Bool
  | .unlink _ => false
  | _ => true

/-- Effect of a job-mutating op on the `Job` record (the field assignments at
main.py lines 138, 145, 146, 151, 152, 153). -/
def jobEffect : BatchOp → Job → Job
  | .setMessage m, j => { j with messages := m }
  | .addProgress q, j => { j with progress := j.progress + q }
  | .appendResult r, j => { j with results := j.results ++ [r] }
  | .setProgress q, j => { j with progress := q }
  | .setStatus st, j => { j with status := st }
  | .unlink _, j => j

def applyJob (j : Job) (op : BatchOp) : Job := jobEffect op j

/-- Execute one op on the global state.  A job op performs the `jobs[uid]`
subscript first: a missing key is Python `KeyError`, modelled as `none`.
`unlink` is `Path.unlink(missing_ok=True)`: remove the path if present,
no error when absent. -/
def applyOp (uid : Nat) (op : BatchOp) (s : ServerState) : Option ServerState :=
  match op with
  | .unlink p => some { s with files := s.files.erase p }
  | op =>
    match lookupJob s.jobs uid with
    | none => none
    | some j => some { s with jobs := setJob s.jobs uid (jobEffect op j) }

/-- Run ops in order.  An uncaught exception (a `none` step) kills the
background task and leaves the global state as it was at that point,
returning `(state so far, false)`; `(final state, true)` on normal
completion. -/
def runOps (uid : Nat) : List BatchOp → ServerState → ServerState × Bool
  | [], s => (s, true)
  | op :: rest, s =>
    match applyOp uid op s with
    | none => (s, false)
    | some s2 => runOps uid rest s2

/-- `single_progress_step = 1 / len(file_mappings)` (main.py line 136). -/
def stepOf (m : List FileItem) : ℚ := 1 / (m.length : ℚ)

/-- Loop body for one item (main.py lines 137-146): set the processing
message, run OCR off-thread (no job-state effect), add the step to
`progress`, then append the result pair. -/
def itemOps (step : ℚ) (it : FileItem) : List BatchOp :=
  [ .setMessage ("Processing " ++ it.name ++ "."),
    .addProgress step,
    .appendResult (itemResult it) ]

/-- Completion block (main.py lines 150-153). -/
def finishOps : List BatchOp :=
  [ .setProgress 1, .setMessage "Completed.", .setStatus "completed" ]

/-- Cleanup loop (main.py lines 155-157): unlink every staged path, after
the whole batch. -/
def cleanupOps (m : List FileItem) : List BatchOp :=
  m.map (fun it => .unlink it.path)

/-- All state mutations of one batch run, in program order. -/
def batchOps (m : List FileItem) : List BatchOp :=
  (m.map (itemOps (stepOf m))).flatten ++ finishOps ++ cleanupOps m

/-- `convert_multiple_images_to_text` (main.py lines 122-157).  For an empty
`file_mappings` the statement `1 / len(file_mappings)` at line 136 raises
`ZeroDivisionError` before any state is touched, killing the background
task: modelled as `(s, false)`. -/
def convert_multiple_images_to_text (m : List FileItem) (uid : Nat)
    (s : ServerState) : ServerState × Bool :=
  if m.length = 0 then (s, false)
  else runOps uid (batchOps m) s

/-- `get_results` (main.py lines 220-229), `GET /api/get-results`: `none`
models the 404 `HTTPException`; otherwise the accumulated results are
returned and the job is deleted from the store in the same handler. -/
def get_results (s : ServerState) (uid : Nat) :
    Option (List (String × String) × ServerState) :=
  match lookupJob s.jobs uid with
  | none => none
  | some task => some (task.results, { s with jobs := eraseJob s.jobs uid })

/-- The job's progress as observed after the first `n` operations of a batch
run (0 if the job is missing).  The prefixes of the op list are exactly the
intermediate states an interleaved observer could see. -/
def progressAt (m : List FileItem) (uid : Nat) (s : ServerState) (n : Nat) : ℚ :=
  match lookupJob ((runOps uid ((batchOps m).take n) s).1).jobs uid with
  | none => 0
  | some j => j.progress

/-- The list of increments a sequence of ops adds to the progress field. -/
def addsOf (L : List BatchOp) : List ℚ :=
  L.filterMap (fun op =>
    match op with
    | BatchOp.addProgress q => some q
    | _ => none)

end PaddleOcrWeb

namespace PaddleOcrWeb

/-! ### Job store dictionary lemmas -/

theorem lookupJob_eq_none_of_not_mem (l : List (Nat × Job)) (uid : Nat)
    (h : uid ∉ l.map Prod.fst) : lookupJob l uid = none := by
  induction l with
  | nil => rfl
  | cons p rest ih =>
    obtain ⟨k, j⟩ := p
    simp only [List.map_cons, List.mem_cons, not_or] at h
    have hk : ¬ (k = uid) := fun hk => h.1 hk.symm
    simp only [lookupJob, if_neg hk]
    exact ih h.2

theorem lookupJob_eraseJob_self (l : List (Nat × Job)) (uid : Nat)
    (hnd : (l.map Prod.fst).Nodup) : lookupJob (eraseJob l uid) uid = none := by
  induction l with
  | nil => rfl
  | cons p rest ih =>
    obtain ⟨k, j⟩ := p
    simp only [List.map_cons, List.nodup_cons] at hnd
    by_cases hk : k = uid
    · simp only [eraseJob, if_pos hk]
      exact lookupJob_eq_none_of_not_mem rest uid (hk ▸ hnd.1)
    · simp only [eraseJob, if_neg hk, lookupJob, if_neg hk]
      exact ih hnd.2

/-! ### C2: one-shot destructive result retrieval -/

/-- C2: on an existing job id, `get_results` returns the accumulated result
sequence and removes the Job from the store in the same handler; a second
call with the same id fails with NotFound (`none`), even immediately after
a successful first call. -/
theorem take_results_exactly_once (s : ServerState) (uid : Nat) (j : Job)
    (hj : lookupJob s.jobs uid = some j)
    (hnd : (s.jobs.map Prod.fst).Nodup) :
    get_results s uid = some (j.results, { s with jobs := eraseJob s.jobs uid }) ∧
    get_results { s with jobs := eraseJob s.jobs uid } uid = none := by
  constructor
  · simp [get_results, hj]
  · simp [get_results, lookupJob_eraseJob_self _ _ hnd]

/-- Witness for C2 at a concrete one-job store. -/
theorem take_results_exactly_once_witness :
    lookupJob [(0, Job.init)] 0 = some Job.init ∧
    (([(0, Job.init)] : List (Nat × Job)).map Prod.fst).Nodup ∧
    (get_results ⟨[(0, Job.init)], []⟩ 0 =
        some (Job.init.results,
          { (⟨[(0, Job.init)], []⟩ : ServerState) with
              jobs := eraseJob [(0, Job.init)] 0 }) ∧
      get_results
        { (⟨[(0, Job.init)], []⟩ : ServerState) with
            jobs := eraseJob [(0, Job.init)] 0 } 0 = none) :=
  ⟨rfl, by decide,
    take_results_exactly_once ⟨[(0, Job.init)], []⟩ 0 Job.init rfl (by decide)⟩

/-! ### C4: fixed-capacity FIFO token cache -/

theorem pushToken_foldl (l : List TokenEntry) :
    ∀ init : List TokenEntry, init.length ≤ 20 →
      l.foldl pushToken init = (init ++ l).drop (init.length + l.length - 20) := by
  induction l with
  | nil =>
    intro init h
    simp only [List.foldl_nil, List.length_nil, List.append_nil, Nat.add_zero,
      Nat.sub_eq_zero_of_le h, List.drop_zero]
  | cons x l' ih =>
    intro init h
    have hpush : pushToken init x = (init ++ [x]).drop (init.length + 1 - 20) :=
      rfl
    rcases Nat.lt_or_ge init.length 20 with hlt | hge
    · have hb : pushToken init x = init ++ [x] := by
        rw [hpush, Nat.sub_eq_zero_of_le (by omega), List.drop_zero]
      have hlen : (init ++ [x]).length ≤ 20 := by
        simp only [List.length_append, List.length_singleton]
        omega
      rw [List.foldl_cons, hb, ih (init ++ [x]) hlen]
      congr 1
      · simp only [List.length_append, List.length_singleton, List.length_cons,
          List.length_nil]
        omega
      · simp [List.append_assoc]
    · have heq : init.length = 20 := Nat.le_antisymm h hge
      have hb : pushToken init x = (init ++ [x]).drop 1 := by
        rw [hpush, heq]
      have hlen : ((init ++ [x]).drop 1).length ≤ 20 := by
        simp [List.length_drop, heq]
      rw [List.foldl_cons, hb, ih _ hlen]
      have hsplit : ((init ++ [x]) ++ l').drop 1 = (init ++ [x]).drop 1 ++ l' := by
        rw [List.drop_append_eq_append_drop]
        simp
      rw [← hsplit, List.drop_drop]
      congr 1
      · simp only [List.length_drop, List.length_append, List.length_singleton,
          List.length_cons, List.length_nil, heq]
        omega
      · simp [List.append_assoc]

/-- C4: for every sequence of `get_token` issuance calls longer than the
capacity `N_MAX_VALID_TOKENS = 20`, the buffer afterwards holds exactly the
20 most recently issued tokens in issuance order (the oldest were evicted
first), regardless of the expiry timestamps involved. -/
theorem token_cache_keeps_newest (calls : List (List Char × ℚ))
    (h : N_MAX_VALID_TOKENS < calls.length) :
    calls.foldl (fun b c => (get_token b c.1 c.2).1) [] =
      (calls.map (fun c => TokenEntry.mk c.1 (c.2 + TOKEN_EXPIRY_SEC))).drop
        (calls.length - N_MAX_VALID_TOKENS) ∧
    (calls.foldl (fun b c => (get_token b c.1 c.2).1) []).length =
      N_MAX_VALID_TOKENS := by
  have hfold : calls.foldl (fun b c => (get_token b c.1 c.2).1) [] =
      (calls.map (fun c => TokenEntry.mk c.1 (c.2 + TOKEN_EXPIRY_SEC))).foldl
        pushToken [] := by
    rw [List.foldl_map]
    rfl
  have hmain := pushToken_foldl
    (calls.map (fun c => TokenEntry.mk c.1 (c.2 + TOKEN_EXPIRY_SEC))) []
    (by simp)
  simp only [List.nil_append, List.length_nil, Nat.zero_add, List.length_map]
    at hmain
  constructor
  · rw [hfold, hmain]
    rfl
  · rw [hfold, hmain, List.length_drop, List.length_map]
    simp only [N_MAX_VALID_TOKENS] at h ⊢
    omega

/-- Witness for C4: 21 issuance calls leave exactly the newest 20 tokens. -/
theorem token_cache_keeps_newest_witness :
    N_MAX_VALID_TOKENS < (List.replicate 21 (('a' :: []), (0 : ℚ))).length ∧
    ((List.replicate 21 (('a' :: []), (0 : ℚ))).foldl
        (fun b c => (get_token b c.1 c.2).1) [] =
      ((List.replicate 21 (('a' :: []), (0 : ℚ))).map
          (fun c => TokenEntry.mk c.1 (c.2 + TOKEN_EXPIRY_SEC))).drop
        ((List.replicate 21 (('a' :: []), (0 : ℚ))).length - N_MAX_VALID_TOKENS) ∧
      ((List.replicate 21 (('a' :: []), (0 : ℚ))).foldl
          (fun b c => (get_token b c.1 c.2).1) []).length = N_MAX_VALID_TOKENS) :=
  ⟨by decide, token_cache_keeps_newest _ (by decide)⟩

/-! ### C6: zero-item batch -/

/-- C6 (documents the code bug): a batch started with zero upload items does
not complete; `1 / len(file_mappings)` at main.py line 136 raises
`ZeroDivisionError` and the background task dies before touching any state,
so the job keeps status "processing", progress 0 and empty results forever. -/
theorem zero_items_crashes (uid : Nat) (s : ServerState) :
    convert_multiple_images_to_text [] uid s = (s, false) := by
  simp [convert_multiple_images_to_text]

end PaddleOcrWeb

namespace PaddleOcrWeb

/-! ### String replacement lemmas for the token strip -/

theorem replaceAll_of_not_infix (p r : List Char) (l : List Char)
    (h : ¬ p <:+: l) : replaceAll p r l = l := by
  induction l with
  | nil => simp [replaceAll]
  | cons c rest ih =>
    have hnp : ¬ (p ≠ [] ∧ p.isPrefixOf (c :: rest)) := by
      rintro ⟨-, hp⟩
      exact h (List.isPrefixOf_iff_prefix.mp hp).isInfix
    have hrest : ¬ p <:+: rest := by
      rintro ⟨s, t, hst⟩
      exact h ⟨c :: s, t, by simp [hst]⟩
    rw [replaceAll, dif_neg hnp, ih hrest]

theorem replaceAll_cons_marker (p r : List Char) (hp : p ≠ []) (l : List Char) :
    replaceAll p r (p ++ l) = r ++ replaceAll p r l := by
  obtain ⟨c, p', rfl⟩ : ∃ c p', p = c :: p' := by
    cases p with
    | nil => exact absurd rfl hp
    | cons c p' => exact ⟨c, p', rfl⟩
  have hpre : (c :: p').isPrefixOf ((c :: p') ++ l) = true :=
    List.isPrefixOf_iff_prefix.mpr ⟨l, rfl⟩
  have hcond : (c :: p') ≠ [] ∧ (c :: p').isPrefixOf (c :: (p' ++ l)) := by
    refine ⟨by simp, ?_⟩
    exact hpre
  rw [List.cons_append, replaceAll, dif_pos hcond]
  congr 1
  have : c :: (p' ++ l) = (c :: p') ++ l := by simp
  rw [this, List.drop_left]

/-! ### C3: token validation succeeds or fails exactly as specified -/

/-- C3: for a well-formed candidate (one not containing the scheme tag, so
the strip leaves it unchanged) and a buffer whose token strings are distinct
(as produced by the random generator), validation returns `True` iff some
buffer entry holds the candidate and has not expired, and fails with a 401
error in exactly the complementary cases — candidate absent, or present but
`now > expires`; the result is always either `.ok true` or one of the two
401 errors, never anything else. -/
theorem validate_token_iff (buffer : List TokenEntry) (now : ℚ)
    (cand : List Char) (hcand : ¬ bearerMarker <:+: cand)
    (hnd : (buffer.map TokenEntry.token).Nodup) :
    (verify_token buffer now cand = .ok true ↔
      ∃ e ∈ buffer, e.token = cand ∧ now ≤ e.expires) ∧
    ((∃ msg, verify_token buffer now cand = .error msg) ↔
      (∀ e ∈ buffer, e.token ≠ cand) ∨
        ∃ e ∈ buffer, e.token = cand ∧ now > e.expires) ∧
    (verify_token buffer now cand = .ok true ∨
      verify_token buffer now cand = .error "Invalid or rotated token" ∨
      verify_token buffer now cand = .error "Token expired") := by
  have hstrip : replaceAll bearerMarker [] cand = cand :=
    replaceAll_of_not_infix _ _ _ hcand
  have huniq : ∀ e1 ∈ buffer, ∀ e2 ∈ buffer, e1.token = e2.token → e1 = e2 :=
    fun e1 h1 e2 h2 he => List.inj_on_of_nodup_map hnd h1 h2 he
  rcases hfind : buffer.find? (fun t => t.token == cand) with - | e
  · have hv : verify_token buffer now cand = .error "Invalid or rotated token" := by
      simp only [verify_token, hstrip, hfind]
    have hnone : ∀ e ∈ buffer, e.token ≠ cand := by
      intro e he
      have h2 := List.find?_eq_none.mp hfind e he
      simpa using h2
    refine ⟨?_, ?_, ?_⟩
    · rw [hv]
      simp only [reduceCtorEq, false_iff]
      rintro ⟨e, he, het, -⟩
      exact hnone e he het
    · rw [hv]
      simp only [Except.error.injEq, exists_eq', true_iff]
      exact Or.inl hnone
    · rw [hv]
      simp
  · have hmem : e ∈ buffer := List.mem_of_find?_eq_some hfind
    have htok : e.token = cand := by
      have h2 := List.find?_some hfind
      simpa using h2
    by_cases hexp : now > e.expires
    · have hv : verify_token buffer now cand = .error "Token expired" := by
        simp only [verify_token, hstrip, hfind]
        rw [if_pos hexp]
      refine ⟨?_, ?_, ?_⟩
      · rw [hv]
        simp only [reduceCtorEq, false_iff]
        rintro ⟨e', he', het', hle'⟩
        have he'e : e' = e := huniq e' he' e hmem (het'.trans htok.symm)
        subst he'e
        exact absurd hle' (not_le.mpr hexp)
      · rw [hv]
        simp only [Except.error.injEq, exists_eq', true_iff]
        exact Or.inr ⟨e, hmem, htok, hexp⟩
      · rw [hv]
        simp
    · have hv : verify_token buffer now cand = .ok true := by
        simp only [verify_token, hstrip, hfind]
        rw [if_neg hexp]
      refine ⟨?_, ?_, ?_⟩
      · rw [hv]
        simp only [true_iff]
        exact ⟨e, hmem, htok, not_lt.mp hexp⟩
      · rw [hv]
        simp only [reduceCtorEq, exists_false, false_iff]
        rintro (hall | ⟨e', he', het', hgt'⟩)
        · exact hall e hmem htok
        · have he'e : e' = e := huniq e' he' e hmem (het'.trans htok.symm)
          subst he'e
          exact absurd hgt' hexp
      · rw [hv]
        simp

/-- Witness for C3 at a concrete buffer and clock. -/
theorem validate_token_iff_witness :
    (¬ bearerMarker <:+: ['t']) ∧
    (([TokenEntry.mk ['t'] 100].map TokenEntry.token).Nodup) ∧
    ((verify_token [TokenEntry.mk ['t'] 100] 0 ['t'] = .ok true ↔
        ∃ e ∈ [TokenEntry.mk ['t'] 100], e.token = ['t'] ∧ (0 : ℚ) ≤ e.expires) ∧
      ((∃ msg, verify_token [TokenEntry.mk ['t'] 100] 0 ['t'] = .error msg) ↔
        (∀ e ∈ [TokenEntry.mk ['t'] 100], e.token ≠ ['t']) ∨
          ∃ e ∈ [TokenEntry.mk ['t'] 100], e.token = ['t'] ∧ (0 : ℚ) > e.expires) ∧
      (verify_token [TokenEntry.mk ['t'] 100] 0 ['t'] = .ok true ∨
        verify_token [TokenEntry.mk ['t'] 100] 0 ['t'] =
          .error "Invalid or rotated token" ∨
        verify_token [TokenEntry.mk ['t'] 100] 0 ['t'] = .error "Token expired")) :=
  ⟨by decide, by decide,
    validate_token_iff [TokenEntry.mk ['t'] 100] 0 ['t'] (by decide) (by decide)⟩

/-! ### C9: the bearer scheme tag is stripped before lookup -/

/-- C9: for every issued token (whose urlsafe alphabet cannot contain the
scheme tag, since tokens never contain a space), sending the bearer-style
header value with its scheme tag validates exactly like the raw token
string, against any buffer and any clock. -/
theorem bearer_header_strip (buffer : List TokenEntry) (now : ℚ)
    (t : List Char) (h : ¬ bearerMarker <:+: t) :
    verify_token buffer now (bearerMarker ++ t) = verify_token buffer now t := by
  have h1 : replaceAll bearerMarker [] (bearerMarker ++ t) =
      replaceAll bearerMarker [] t := by
    rw [replaceAll_cons_marker _ _ (by decide) t, List.nil_append]
  simp only [verify_token, h1]

/-- Witness for C9 with a concrete token and buffer. -/
theorem bearer_header_strip_witness :
    (¬ bearerMarker <:+: "tok123".toList) ∧
    verify_token [TokenEntry.mk "tok123".toList 100] 50
        (bearerMarker ++ "tok123".toList) =
      verify_token [TokenEntry.mk "tok123".toList 100] 50 "tok123".toList :=
  ⟨by decide,
    bearer_header_strip [TokenEntry.mk "tok123".toList 100] 50 "tok123".toList
      (by decide)⟩

end PaddleOcrWeb

namespace PaddleOcrWeb

/-! ### Batch runner execution lemmas -/

theorem runOps_append (uid : Nat) (l1 l2 : List BatchOp) (s : ServerState) :
    runOps uid (l1 ++ l2) s =
      if (runOps uid l1 s).2 then runOps uid l2 (runOps uid l1 s).1
      else runOps uid l1 s := by
  induction l1 generalizing s with
  | nil => simp [runOps]
  | cons op rest ih =>
    simp only [List.cons_append, runOps]
    cases h : applyOp uid op s with
    | none => simp
    | some s2 => simp [ih s2]

theorem lookupJob_setJob_self (l : List (Nat × Job)) (uid : Nat) (j0 j : Job)
    (h : lookupJob l uid = some j0) :
    lookupJob (setJob l uid j) uid = some j := by
  induction l with
  | nil => simp [lookupJob] at h
  | cons p rest ih =>
    obtain ⟨k, jk⟩ := p
    by_cases hk : k = uid
    · simp [setJob, lookupJob, hk]
    · simp only [setJob, if_neg hk, lookupJob, if_neg hk] at h ⊢
      exact ih h

theorem setJob_keys (l : List (Nat × Job)) (uid : Nat) (j : Job) :
    (setJob l uid j).map Prod.fst = l.map Prod.fst := by
  induction l with
  | nil => rfl
  | cons p rest ih =>
    obtain ⟨k, jk⟩ := p
    by_cases hk : k = uid
    · simp [setJob, hk]
    · simp [setJob, hk, ih]

theorem applyOp_jobop (uid : Nat) (op : BatchOp) (hop : op.isJobOp = true)
    (s : ServerState) :
    applyOp uid op s =
      match lookupJob s.jobs uid with
      | none => none
      | some j => some { s with jobs := setJob s.jobs uid (jobEffect op j) } := by
  cases op with
  | unlink p => simp [BatchOp.isJobOp] at hop
  | setMessage m => rfl
  | addProgress q => rfl
  | appendResult r => rfl
  | setProgress q => rfl
  | setStatus st => rfl

/-- Running a list of job-mutating ops from a state holding the job
succeeds, leaves the file system and the dict keys untouched, and replaces
the job with the left fold of the op effects. -/
theorem runOps_jobops (uid : Nat) (L : List BatchOp)
    (hL : ∀ op ∈ L, op.isJobOp = true) :
    ∀ (s : ServerState) (j : Job), lookupJob s.jobs uid = some j →
      ∃ js, runOps uid L s = (⟨js, s.files⟩, true) ∧
        lookupJob js uid = some (L.foldl applyJob j) ∧
        js.map Prod.fst = s.jobs.map Prod.fst := by
  induction L with
  | nil =>
    intro s j hj
    exact ⟨s.jobs, rfl, hj, rfl⟩
  | cons op rest ih =>
    intro s j hj
    have hop : op.isJobOp = true := hL op (by simp)
    have hrest : ∀ op' ∈ rest, op'.isJobOp = true :=
      fun op' h => hL op' (by simp [h])
    have happ : applyOp uid op s =
        some { s with jobs := setJob s.jobs uid (jobEffect op j) } := by
      rw [applyOp_jobop uid op hop, hj]
    have hlook : lookupJob (setJob s.jobs uid (jobEffect op j)) uid =
        some (jobEffect op j) := lookupJob_setJob_self _ _ _ _ hj
    obtain ⟨js, hrun, hjs, hkeys⟩ :=
      ih hrest { s with jobs := setJob s.jobs uid (jobEffect op j) }
        (jobEffect op j) hlook
    refine ⟨js, ?_, ?_, ?_⟩
    · simp only [runOps, happ]
      exact hrun
    · exact hjs
    · rw [hkeys]
      exact setJob_keys _ _ _

/-- Folding the three ops of one item over a job record. -/
theorem foldl_itemOps (step : ℚ) (it : FileItem) (j : Job) :
    (itemOps step it).foldl applyJob j =
      { j with messages := "Processing " ++ it.name ++ ".",
               progress := j.progress + step,
               results := j.results ++ [itemResult it] } := rfl

/-- Folding the whole per-item loop over a job record: progress grows by
(number of items) * step, every item appends exactly its result pair in
input order, and the status is untouched. -/
theorem foldl_items_flatten (step : ℚ) (m : List FileItem) :
    ∀ j : Job, ∃ msg,
      ((m.map (itemOps step)).flatten).foldl applyJob j =
        { j with messages := msg,
                 progress := j.progress + m.length * step,
                 results := j.results ++ m.map itemResult } := by
  induction m with
  | nil =>
    intro j
    refine ⟨j.messages, ?_⟩
    simp
  | cons it rest ih =>
    intro j
    obtain ⟨msg, hmsg⟩ := ih
      { j with messages := "Processing " ++ it.name ++ ".",
               progress := j.progress + step,
               results := j.results ++ [itemResult it] }
    refine ⟨msg, ?_⟩
    rw [List.map_cons, List.flatten_cons, List.foldl_append, foldl_itemOps, hmsg]
    simp only [Job.mk.injEq, List.length_cons]
    refine ⟨trivial, trivial, ?_, by simp⟩
    push_cast
    ring

/-- The cleanup loop erases every staged path, in input order, touching
nothing else. -/
theorem runOps_cleanup (uid : Nat) (m : List FileItem) :
    ∀ s : ServerState, runOps uid (cleanupOps m) s =
      ({ s with files := m.foldl (fun fs it => fs.erase it.path) s.files }, true) := by
  induction m with
  | nil =>
    intro s
    rfl
  | cons it rest ih =>
    intro s
    simp only [cleanupOps, List.map_cons, runOps, applyOp]
    have hih := ih { s with files := s.files.erase it.path }
    simp only [cleanupOps] at hih
    rw [hih]
    rfl

theorem itemOps_jobop (step : ℚ) (it : FileItem) :
    ∀ op ∈ itemOps step it, op.isJobOp = true := by
  intro op hop
  simp only [itemOps, List.mem_cons, List.not_mem_nil, or_false] at hop
  rcases hop with rfl | rfl | rfl <;> rfl

theorem jobops_flatten (step : ℚ) (m : List FileItem) :
    ∀ op ∈ (m.map (itemOps step)).flatten, op.isJobOp = true := by
  intro op hop
  rw [List.mem_flatten] at hop
  obtain ⟨l, hl, hopl⟩ := hop
  rw [List.mem_map] at hl
  obtain ⟨it, -, rfl⟩ := hl
  exact itemOps_jobop step it op hopl

theorem finishOps_jobop : ∀ op ∈ finishOps, op.isJobOp = true := by
  intro op hop
  simp only [finishOps, List.mem_cons, List.not_mem_nil, or_false] at hop
  rcases hop with rfl | rfl | rfl <;> rfl

/-- Full-batch characterisation: from any state holding the job, a non-empty
batch runs to completion, the job ends completed at progress exactly 1 with
one result pair per item in input order appended to its results, every
staged path has been erased from the file store, and the dict keys are
unchanged. -/
theorem convert_spec (m : List FileItem) (hm : m ≠ []) (uid : Nat)
    (s : ServerState) (j : Job) (hj : lookupJob s.jobs uid = some j) :
    ∃ js, convert_multiple_images_to_text m uid s =
        (⟨js, m.foldl (fun fs it => fs.erase it.path) s.files⟩, true) ∧
      lookupJob js uid = some
        { status := "completed", messages := "Completed.", progress := 1,
          results := j.results ++ m.map itemResult } ∧
      js.map Prod.fst = s.jobs.map Prod.fst := by
  have hlen : m.length ≠ 0 := by simpa using hm
  have hJjob : ∀ op ∈ (m.map (itemOps (stepOf m))).flatten ++ finishOps,
      op.isJobOp = true := by
    intro op hop
    rcases List.mem_append.mp hop with h1 | h2
    · exact jobops_flatten _ m op h1
    · exact finishOps_jobop op h2
  obtain ⟨js, hrun, hlook, hkeys⟩ :=
    runOps_jobops uid ((m.map (itemOps (stepOf m))).flatten ++ finishOps)
      hJjob s j hj
  obtain ⟨msg, hfold⟩ := foldl_items_flatten (stepOf m) m j
  have hstep : (m.length : ℚ) * stepOf m = 1 := by
    rw [stepOf]
    field_simp
  have hfinal : ((m.map (itemOps (stepOf m))).flatten ++ finishOps).foldl
      applyJob j =
      { status := "completed", messages := "Completed.", progress := 1,
        results := j.results ++ m.map itemResult } := by
    rw [List.foldl_append, hfold]
    rfl
  refine ⟨js, ?_, ?_, hkeys⟩
  · have hops : batchOps m =
        ((m.map (itemOps (stepOf m))).flatten ++ finishOps) ++ cleanupOps m := rfl
    rw [convert_multiple_images_to_text, if_neg hlen, hops, runOps_append, hrun]
    simp only [if_true]
    rw [runOps_cleanup uid m ⟨js, s.files⟩]
  · rw [hlook, hfinal]

end PaddleOcrWeb

namespace PaddleOcrWeb

/-! ### C1: a non-empty batch completes with all results in order -/

/-- C1: for a Job created fresh (the `run_ocr` defaults) with `k ≥ 1` upload
items, after the batch runner finishes the job holds exactly `k` result
entries, in the same order as the input items, progress equals exactly 1,
and status equals "completed". -/
theorem batch_completes_all_items (m : List FileItem) (k : Nat)
    (hk : m.length = k) (h1 : 1 ≤ k) (uid : Nat) (s : ServerState)
    (hj : lookupJob s.jobs uid = some Job.init) :
    ∃ s' j', convert_multiple_images_to_text m uid s = (s', true) ∧
      lookupJob s'.jobs uid = some j' ∧
      j'.results = m.map itemResult ∧
      j'.results.length = k ∧
      j'.results.map Prod.fst = m.map FileItem.name ∧
      j'.progress = 1 ∧
      j'.status = "completed" := by
  have hm : m ≠ [] := by
    intro h
    subst h
    simp at hk
    omega
  obtain ⟨js, hrun, hlook, -⟩ := convert_spec m hm uid s Job.init hj
  refine ⟨_, _, hrun, hlook, ?_, ?_, ?_, rfl, rfl⟩
  · simp [Job.init]
  · simp [Job.init, hk]
  · simp [Job.init, itemResult]

/-- Witness for C1: a one-item batch over a concrete store. -/
theorem batch_completes_all_items_witness :
    ([⟨"a.png", "p1", OcrOutcome.ok [⟨["hi"]⟩]⟩] : List FileItem).length = 1 ∧
    1 ≤ 1 ∧
    lookupJob [(0, Job.init)] 0 = some Job.init ∧
    (∃ s' j', convert_multiple_images_to_text
          [⟨"a.png", "p1", OcrOutcome.ok [⟨["hi"]⟩]⟩] 0
          ⟨[(0, Job.init)], ["p1"]⟩ = (s', true) ∧
      lookupJob s'.jobs 0 = some j' ∧
      j'.results = [⟨"a.png", "p1", OcrOutcome.ok [⟨["hi"]⟩]⟩].map itemResult ∧
      j'.results.length = 1 ∧
      j'.results.map Prod.fst =
        [⟨"a.png", "p1", OcrOutcome.ok [⟨["hi"]⟩]⟩].map FileItem.name ∧
      j'.progress = 1 ∧
      j'.status = "completed") :=
  ⟨rfl, by decide, rfl,
    batch_completes_all_items [⟨"a.png", "p1", OcrOutcome.ok [⟨["hi"]⟩]⟩] 1
      rfl (by decide) 0 ⟨[(0, Job.init)], ["p1"]⟩ rfl⟩

/-! ### C5: per-item failures are recorded, never aborting the batch -/

/-- C5: a recognition failure on any item never aborts the batch and never
prevents later items from being processed: every item contributes exactly
one result pair, in input order; an outright recognition error is recorded
as the fixed failure placeholder string, an empty-but-successful recognition
as the empty string; each counts as one processed item, and the job still
reaches status "completed" with progress 1. -/
theorem item_failures_recorded (m : List FileItem) (hm : m ≠ []) (uid : Nat)
    (s : ServerState) (hj : lookupJob s.jobs uid = some Job.init) :
    ∃ s' j', convert_multiple_images_to_text m uid s = (s', true) ∧
      lookupJob s'.jobs uid = some j' ∧
      j'.status = "completed" ∧
      j'.progress = 1 ∧
      j'.results = m.map itemResult ∧
      j'.results.length = m.length ∧
      (∀ it ∈ m, it.outcome = OcrOutcome.err →
        itemResult it = (it.name, "(Failed. Please reduce the image size.)")) ∧
      (∀ it ∈ m, it.outcome = OcrOutcome.ok [] →
        itemResult it = (it.name, "")) := by
  obtain ⟨js, hrun, hlook, -⟩ := convert_spec m hm uid s Job.init hj
  refine ⟨_, _, hrun, hlook, rfl, rfl, ?_, ?_, ?_, ?_⟩
  · simp [Job.init]
  · simp [Job.init]
  · intro it _ hout
    simp [itemResult, hout, convert_image_to_text]
  · intro it _ hout
    simp [itemResult, hout, convert_image_to_text]

/-- Witness for C5: a three-item batch whose middle item fails outright and
whose last item returns an empty recognition. -/
theorem item_failures_recorded_witness :
    ([⟨"a", "p1", OcrOutcome.ok [⟨["x"]⟩]⟩, ⟨"b", "p2", OcrOutcome.err⟩,
        ⟨"c", "p3", OcrOutcome.ok []⟩] : List FileItem) ≠ [] ∧
    lookupJob [(7, Job.init)] 7 = some Job.init ∧
    (∃ s' j', convert_multiple_images_to_text
          [⟨"a", "p1", OcrOutcome.ok [⟨["x"]⟩]⟩, ⟨"b", "p2", OcrOutcome.err⟩,
            ⟨"c", "p3", OcrOutcome.ok []⟩] 7
          ⟨[(7, Job.init)], ["p1", "p2", "p3"]⟩ = (s', true) ∧
      lookupJob s'.jobs 7 = some j' ∧
      j'.status = "completed" ∧
      j'.progress = 1 ∧
      j'.results = ([⟨"a", "p1", OcrOutcome.ok [⟨["x"]⟩]⟩,
          ⟨"b", "p2", OcrOutcome.err⟩,
          ⟨"c", "p3", OcrOutcome.ok []⟩] : List FileItem).map itemResult ∧
      j'.results.length = ([⟨"a", "p1", OcrOutcome.ok [⟨["x"]⟩]⟩,
          ⟨"b", "p2", OcrOutcome.err⟩,
          ⟨"c", "p3", OcrOutcome.ok []⟩] : List FileItem).length ∧
      (∀ it ∈ ([⟨"a", "p1", OcrOutcome.ok [⟨["x"]⟩]⟩,
          ⟨"b", "p2", OcrOutcome.err⟩,
          ⟨"c", "p3", OcrOutcome.ok []⟩] : List FileItem),
        it.outcome = OcrOutcome.err →
          itemResult it = (it.name, "(Failed. Please reduce the image size.)")) ∧
      (∀ it ∈ ([⟨"a", "p1", OcrOutcome.ok [⟨["x"]⟩]⟩,
          ⟨"b", "p2", OcrOutcome.err⟩,
          ⟨"c", "p3", OcrOutcome.ok []⟩] : List FileItem),
        it.outcome = OcrOutcome.ok [] → itemResult it = (it.name, ""))) :=
  ⟨by decide, rfl,
    item_failures_recorded
      [⟨"a", "p1", OcrOutcome.ok [⟨["x"]⟩]⟩, ⟨"b", "p2", OcrOutcome.err⟩,
        ⟨"c", "p3", OcrOutcome.ok []⟩]
      (by decide) 7 ⟨[(7, Job.init)], ["p1", "p2", "p3"]⟩ rfl⟩

end PaddleOcrWeb

namespace PaddleOcrWeb

/-! ### C8: staged files are released only by the final cleanup pass -/

theorem length_itemops_flatten (m : List FileItem) :
    ((m.map (itemOps (stepOf m))).flatten).length = 3 * m.length := by
  rw [List.length_flatten, List.map_map]
  have hc : (List.length ∘ itemOps (stepOf m)) = fun _ => 3 := by
    funext it
    rfl
  rw [hc, List.map_const', List.sum_replicate, smul_eq_mul]
  omega

/-- C8 counterexample: in a two-item batch, after the first item's
processing step has fully finished — its recognition returned, progress was
incremented and its result pair ("a.png", "hi") recorded — the first item's
staged file "p1" is still present in storage, so staged files are not
removed during the item's own processing step. -/
theorem staged_file_survives_item_step :
    (runOps 0 ((batchOps
        [⟨"a.png", "p1", OcrOutcome.ok [⟨["hi"]⟩]⟩,
         ⟨"b.png", "p2", OcrOutcome.err⟩]).take 3)
      ⟨[(0, Job.init)], ["p1", "p2"]⟩).2 = true ∧
    (runOps 0 ((batchOps
        [⟨"a.png", "p1", OcrOutcome.ok [⟨["hi"]⟩]⟩,
         ⟨"b.png", "p2", OcrOutcome.err⟩]).take 3)
      ⟨[(0, Job.init)], ["p1", "p2"]⟩).1.files = ["p1", "p2"] ∧
    (lookupJob (runOps 0 ((batchOps
        [⟨"a.png", "p1", OcrOutcome.ok [⟨["hi"]⟩]⟩,
         ⟨"b.png", "p2", OcrOutcome.err⟩]).take 3)
      ⟨[(0, Job.init)], ["p1", "p2"]⟩).1.jobs 0).map Job.results =
      some [("a.png", "hi")] ∧
    (lookupJob (runOps 0 ((batchOps
        [⟨"a.png", "p1", OcrOutcome.ok [⟨["hi"]⟩]⟩,
         ⟨"b.png", "p2", OcrOutcome.err⟩]).take 3)
      ⟨[(0, Job.init)], ["p1", "p2"]⟩).1.jobs 0).map Job.messages =
      some "Processing a.png." :=
  ⟨by decide, by decide, by decide, by decide⟩

/-- C8 amended: each staged file is removed from storage exactly once, but
only by the cleanup pass that runs after every item has been processed and
the job has been marked completed — through the entire item-processing and
completion phase (the first `3k + 3` operations) the staged files are
untouched; at the end every staged path has been erased, and unlinking a
missing path is not an error. -/
theorem staged_files_removed_in_cleanup (m : List FileItem) (hm : m ≠ [])
    (uid : Nat) (s : ServerState) (j : Job)
    (hj : lookupJob s.jobs uid = some j) :
    (∀ n, n ≤ 3 * m.length + 3 →
      ((runOps uid ((batchOps m).take n) s).1).files = s.files) ∧
    (convert_multiple_images_to_text m uid s).1.files =
      m.foldl (fun fs it => fs.erase it.path) s.files ∧
    (∀ p s2, applyOp uid (BatchOp.unlink p) s2 =
      some { s2 with files := s2.files.erase p }) := by
  have hJjob : ∀ op ∈ (m.map (itemOps (stepOf m))).flatten ++ finishOps,
      op.isJobOp = true := by
    intro op hop
    rcases List.mem_append.mp hop with h1 | h2
    · exact jobops_flatten _ m op h1
    · exact finishOps_jobop op h2
  have hJlen : ((m.map (itemOps (stepOf m))).flatten ++ finishOps).length =
      3 * m.length + 3 := by
    rw [List.length_append, length_itemops_flatten]
    rfl
  refine ⟨?_, ?_, fun p s2 => rfl⟩
  · intro n hn
    have htake : (batchOps m).take n =
        ((m.map (itemOps (stepOf m))).flatten ++ finishOps).take n := by
      have hb : batchOps m =
          ((m.map (itemOps (stepOf m))).flatten ++ finishOps) ++ cleanupOps m :=
        rfl
      rw [hb, List.take_append_eq_append_take, hJlen,
        Nat.sub_eq_zero_of_le (by omega), List.take_zero, List.append_nil]
    have hsub : ∀ op ∈ ((m.map (itemOps (stepOf m))).flatten ++ finishOps).take n,
        op.isJobOp = true :=
      fun op h => hJjob op (List.take_subset n _ h)
    obtain ⟨js, hrun, -, -⟩ := runOps_jobops uid _ hsub s j hj
    rw [htake, hrun]
  · obtain ⟨js, hrun, -, -⟩ := convert_spec m hm uid s j hj
    rw [hrun]

/-- Witness for the amended C8 on a concrete two-item batch. -/
theorem staged_files_removed_in_cleanup_witness :
    ([⟨"a.png", "p1", OcrOutcome.ok [⟨["hi"]⟩]⟩,
        ⟨"b.png", "p2", OcrOutcome.err⟩] : List FileItem) ≠ [] ∧
    lookupJob [(0, Job.init)] 0 = some Job.init ∧
    ((∀ n, n ≤ 3 * ([⟨"a.png", "p1", OcrOutcome.ok [⟨["hi"]⟩]⟩,
          ⟨"b.png", "p2", OcrOutcome.err⟩] : List FileItem).length + 3 →
      ((runOps 0 ((batchOps [⟨"a.png", "p1", OcrOutcome.ok [⟨["hi"]⟩]⟩,
          ⟨"b.png", "p2", OcrOutcome.err⟩]).take n)
          ⟨[(0, Job.init)], ["p1", "p2"]⟩).1).files =
        (⟨[(0, Job.init)], ["p1", "p2"]⟩ : ServerState).files) ∧
    (convert_multiple_images_to_text [⟨"a.png", "p1", OcrOutcome.ok [⟨["hi"]⟩]⟩,
          ⟨"b.png", "p2", OcrOutcome.err⟩] 0
        ⟨[(0, Job.init)], ["p1", "p2"]⟩).1.files =
      ([⟨"a.png", "p1", OcrOutcome.ok [⟨["hi"]⟩]⟩,
          ⟨"b.png", "p2", OcrOutcome.err⟩] : List FileItem).foldl
        (fun fs it => fs.erase it.path)
        (⟨[(0, Job.init)], ["p1", "p2"]⟩ : ServerState).files ∧
    (∀ p s2, applyOp 0 (BatchOp.unlink p) s2 =
      some { s2 with files := s2.files.erase p })) :=
  ⟨by decide, rfl,
    staged_files_removed_in_cleanup
      [⟨"a.png", "p1", OcrOutcome.ok [⟨["hi"]⟩]⟩,
        ⟨"b.png", "p2", OcrOutcome.err⟩]
      (by decide) 0 ⟨[(0, Job.init)], ["p1", "p2"]⟩ Job.init rfl⟩

end PaddleOcrWeb

namespace PaddleOcrWeb

/-! ### Item-boundary decompositions of the op list -/

theorem flatten_take_items (step : ℚ) (m : List FileItem) :
    ∀ i, i ≤ m.length →
      ((m.map (itemOps step)).flatten).take (3 * i) =
        ((m.take i).map (itemOps step)).flatten := by
  induction m with
  | nil =>
    intro i hi
    simp only [List.length_nil, Nat.le_zero] at hi
    subst hi
    simp
  | cons it rest ih =>
    intro i hi
    cases i with
    | zero => simp
    | succ i' =>
      rw [List.map_cons, List.flatten_cons]
      have h3 : 3 * (i' + 1) = (itemOps step it).length + 3 * i' := by
        have hl : (itemOps step it).length = 3 := rfl
        omega
      rw [h3, List.take_append, ih i' (by simpa using hi),
        List.take_succ_cons, List.map_cons, List.flatten_cons]

theorem flatten_drop_items (step : ℚ) (m : List FileItem) :
    ∀ i, i ≤ m.length →
      ((m.map (itemOps step)).flatten).drop (3 * i) =
        ((m.drop i).map (itemOps step)).flatten := by
  induction m with
  | nil =>
    intro i hi
    simp only [List.length_nil, Nat.le_zero] at hi
    subst hi
    simp
  | cons it rest ih =>
    intro i hi
    cases i with
    | zero => simp
    | succ i' =>
      rw [List.map_cons, List.flatten_cons]
      have h3 : 3 * (i' + 1) = (itemOps step it).length + 3 * i' := by
        have hl : (itemOps step it).length = 3 := rfl
        omega
      rw [h3, List.drop_append, ih i' (by simpa using hi),
        List.drop_succ_cons]

theorem batchOps_take_boundary (m : List FileItem) (i : Nat)
    (hi : i ≤ m.length) :
    (batchOps m).take (3 * i) =
      ((m.take i).map (itemOps (stepOf m))).flatten := by
  have hb : batchOps m =
      (m.map (itemOps (stepOf m))).flatten ++ (finishOps ++ cleanupOps m) := by
    rw [batchOps, List.append_assoc]
  have hle : 3 * i ≤ ((m.map (itemOps (stepOf m))).flatten).length := by
    rw [length_itemops_flatten]
    omega
  rw [hb, List.take_append_eq_append_take, Nat.sub_eq_zero_of_le hle,
    List.take_zero, List.append_nil, flatten_take_items _ _ i hi]

theorem batchOps_drop_boundary (m : List FileItem) (i : Nat)
    (hi : i ≤ m.length) :
    (batchOps m).drop (3 * i) =
      ((m.drop i).map (itemOps (stepOf m))).flatten ++
        (finishOps ++ cleanupOps m) := by
  have hb : batchOps m =
      (m.map (itemOps (stepOf m))).flatten ++ (finishOps ++ cleanupOps m) := by
    rw [batchOps, List.append_assoc]
  have hle : 3 * i ≤ ((m.map (itemOps (stepOf m))).flatten).length := by
    rw [length_itemops_flatten]
    omega
  rw [hb, List.drop_append_eq_append_drop, Nat.sub_eq_zero_of_le hle,
    List.drop_zero, flatten_drop_items _ _ i hi]

/-! ### C10: fetching results mid-run destroys the job and kills the runner -/

/-- C10: `get_results` has no completed-status precondition.  Called after
`i < k` items have been processed, it succeeds, returns exactly the partial
results of the first `i` items, and removes the Job; the batch runner's
very next job-store update then fails on the lookup of the deleted id and
the background task dies, so the remaining items are never recorded and no
staged file (in particular none of the remaining items' files) is ever
deleted. -/
theorem take_results_midrun (m : List FileItem) (i : Nat) (hi : i < m.length)
    (uid : Nat) (s : ServerState)
    (hj : lookupJob s.jobs uid = some Job.init)
    (hnd : (s.jobs.map Prod.fst).Nodup) :
    ∃ s1, runOps uid ((batchOps m).take (3 * i)) s = (s1, true) ∧
      s1.files = s.files ∧
      get_results s1 uid =
        some ((m.take i).map itemResult,
          { s1 with jobs := eraseJob s1.jobs uid }) ∧
      lookupJob (eraseJob s1.jobs uid) uid = none ∧
      runOps uid ((batchOps m).drop (3 * i))
          { s1 with jobs := eraseJob s1.jobs uid } =
        ({ s1 with jobs := eraseJob s1.jobs uid }, false) ∧
      (runOps uid ((batchOps m).drop (3 * i))
          { s1 with jobs := eraseJob s1.jobs uid }).1.files = s.files := by
  have htake := batchOps_take_boundary m i (Nat.le_of_lt hi)
  have hjobops : ∀ op ∈ ((m.take i).map (itemOps (stepOf m))).flatten,
      op.isJobOp = true := jobops_flatten (stepOf m) (m.take i)
  obtain ⟨js, hrun, hlook, hkeys⟩ :=
    runOps_jobops uid _ hjobops s Job.init hj
  obtain ⟨msg, hfold⟩ := foldl_items_flatten (stepOf m) (m.take i) Job.init
  have hl2 : lookupJob js uid = some
      { Job.init with
        messages := msg,
        progress := Job.init.progress + (m.take i).length * stepOf m,
        results := Job.init.results ++ (m.take i).map itemResult } := by
    rw [hlook, hfold]
  have hnone : lookupJob (eraseJob js uid) uid = none :=
    lookupJob_eraseJob_self js uid (hkeys ▸ hnd)
  have hdrop := batchOps_drop_boundary m i (Nat.le_of_lt hi)
  have hshape : ∃ msg0 rest0, (batchOps m).drop (3 * i) =
      BatchOp.setMessage msg0 :: rest0 := by
    rw [hdrop, List.drop_eq_getElem_cons hi, List.map_cons, List.flatten_cons]
    exact ⟨_, _, rfl⟩
  obtain ⟨msg0, rest0, hs0⟩ := hshape
  refine ⟨⟨js, s.files⟩, ?_, rfl, ?_, hnone, ?_, ?_⟩
  · rw [htake]
    exact hrun
  · simp only [get_results, hl2]
    simp [Job.init]
  · rw [hs0]
    have happ : applyOp uid (BatchOp.setMessage msg0)
        { ServerState.mk js s.files with jobs := eraseJob js uid } = none := by
      rw [applyOp_jobop uid (BatchOp.setMessage msg0) rfl]
      simp only [hnone]
    simp only [runOps, happ]
  · rw [hs0]
    have happ : applyOp uid (BatchOp.setMessage msg0)
        { ServerState.mk js s.files with jobs := eraseJob js uid } = none := by
      rw [applyOp_jobop uid (BatchOp.setMessage msg0) rfl]
      simp only [hnone]
    simp only [runOps, happ]

/-- Witness for C10: interrupt a two-item batch after its first item. -/
theorem take_results_midrun_witness :
    1 < ([⟨"a", "p1", OcrOutcome.ok [⟨["x"]⟩]⟩,
        ⟨"b", "p2", OcrOutcome.err⟩] : List FileItem).length ∧
    lookupJob [(3, Job.init)] 3 = some Job.init ∧
    (([(3, Job.init)] : List (Nat × Job)).map Prod.fst).Nodup ∧
    (∃ s1, runOps 3 ((batchOps [⟨"a", "p1", OcrOutcome.ok [⟨["x"]⟩]⟩,
            ⟨"b", "p2", OcrOutcome.err⟩]).take (3 * 1))
          ⟨[(3, Job.init)], ["p1", "p2"]⟩ = (s1, true) ∧
      s1.files = (⟨[(3, Job.init)], ["p1", "p2"]⟩ : ServerState).files ∧
      get_results s1 3 =
        some ((([⟨"a", "p1", OcrOutcome.ok [⟨["x"]⟩]⟩,
            ⟨"b", "p2", OcrOutcome.err⟩] : List FileItem).take 1).map itemResult,
          { s1 with jobs := eraseJob s1.jobs 3 }) ∧
      lookupJob (eraseJob s1.jobs 3) 3 = none ∧
      runOps 3 ((batchOps [⟨"a", "p1", OcrOutcome.ok [⟨["x"]⟩]⟩,
            ⟨"b", "p2", OcrOutcome.err⟩]).drop (3 * 1))
          { s1 with jobs := eraseJob s1.jobs 3 } =
        ({ s1 with jobs := eraseJob s1.jobs 3 }, false) ∧
      (runOps 3 ((batchOps [⟨"a", "p1", OcrOutcome.ok [⟨["x"]⟩]⟩,
            ⟨"b", "p2", OcrOutcome.err⟩]).drop (3 * 1))
          { s1 with jobs := eraseJob s1.jobs 3 }).1.files =
        (⟨[(3, Job.init)], ["p1", "p2"]⟩ : ServerState).files) :=
  ⟨by decide, rfl, by decide,
    take_results_midrun
      [⟨"a", "p1", OcrOutcome.ok [⟨["x"]⟩]⟩, ⟨"b", "p2", OcrOutcome.err⟩]
      1 (by decide) 3 ⟨[(3, Job.init)], ["p1", "p2"]⟩ rfl (by decide)⟩

end PaddleOcrWeb

namespace PaddleOcrWeb

/-! ### C7: progress bookkeeping lemmas -/

theorem addsOf_append (l1 l2 : List BatchOp) :
    addsOf (l1 ++ l2) = addsOf l1 ++ addsOf l2 := by
  simp [addsOf, List.filterMap_append]

theorem mem_addsOf (L : List BatchOp) (q : ℚ) :
    q ∈ addsOf L ↔ BatchOp.addProgress q ∈ L := by
  rw [addsOf, List.mem_filterMap]
  constructor
  · rintro ⟨op, hop, hf⟩
    cases op <;> simp_all
  · intro h
    exact ⟨BatchOp.addProgress q, h, rfl⟩

/-- Ops that never hard-set the progress field change it by exactly the sum
of their increments. -/
theorem foldl_progress_no_set (L : List BatchOp) :
    ∀ j : Job, (∀ q : ℚ, BatchOp.setProgress q ∉ L) →
      (L.foldl applyJob j).progress = j.progress + (addsOf L).sum := by
  induction L with
  | nil =>
    intro j h
    simp [addsOf]
  | cons op rest ih =>
    intro j h
    have hrest : ∀ q : ℚ, BatchOp.setProgress q ∉ rest := by
      intro q hq
      exact h q (by simp [hq])
    cases op with
    | setProgress q => exact absurd (by simp) (h q)
    | setMessage a =>
      rw [List.foldl_cons, ih _ hrest]
      simp [applyJob, jobEffect, addsOf, List.filterMap_cons]
    | addProgress q =>
      rw [List.foldl_cons, ih _ hrest]
      simp only [applyJob, jobEffect, addsOf, List.filterMap_cons, List.sum_cons]
      ring
    | appendResult r =>
      rw [List.foldl_cons, ih _ hrest]
      simp [applyJob, jobEffect, addsOf, List.filterMap_cons]
    | setStatus a =>
      rw [List.foldl_cons, ih _ hrest]
      simp [applyJob, jobEffect, addsOf, List.filterMap_cons]
    | unlink p =>
      rw [List.foldl_cons, ih _ hrest]
      simp [applyJob, jobEffect, addsOf, List.filterMap_cons]

theorem no_setProgress_itemops (step : ℚ) (m : List FileItem) :
    ∀ q : ℚ, BatchOp.setProgress q ∉ (m.map (itemOps step)).flatten := by
  intro q hq
  rw [List.mem_flatten] at hq
  obtain ⟨l, hl, hql⟩ := hq
  rw [List.mem_map] at hl
  obtain ⟨it, -, rfl⟩ := hl
  simp [itemOps] at hql

/-- The per-item loop contributes exactly one increment of size `step` per
item. -/
theorem addsOf_itemops_flatten (step : ℚ) (m : List FileItem) :
    addsOf ((m.map (itemOps step)).flatten) =
      List.replicate m.length step := by
  induction m with
  | nil => rfl
  | cons it rest ih =>
    rw [List.map_cons, List.flatten_cons, addsOf_append, ih]
    rfl

theorem addsOf_cleanup (m : List FileItem) : addsOf (cleanupOps m) = [] := by
  induction m with
  | nil => rfl
  | cons it rest ih =>
    simp only [cleanupOps, addsOf, List.map_cons, List.filterMap_cons] at ih ⊢
    exact ih

theorem stepOf_nonneg (m : List FileItem) : 0 ≤ stepOf m := by
  rw [stepOf]
  positivity

theorem length_mul_stepOf (m : List FileItem) (hm : m ≠ []) :
    (m.length : ℚ) * stepOf m = 1 := by
  have hlen : m.length ≠ 0 := by simpa using hm
  rw [stepOf]
  field_simp

theorem sum_addsOf_itemops (m : List FileItem) (hm : m ≠ []) :
    (addsOf ((m.map (itemOps (stepOf m))).flatten)).sum = 1 := by
  rw [addsOf_itemops_flatten, List.sum_replicate, nsmul_eq_mul,
    length_mul_stepOf m hm]

/-- Increment sums over prefixes of the per-item loop are monotone in the
prefix length and never exceed 1. -/
theorem addsOf_take_sum_facts (m : List FileItem) (hm : m ≠ []) :
    (∀ n n', n ≤ n' →
      (addsOf (((m.map (itemOps (stepOf m))).flatten).take n)).sum ≤
      (addsOf (((m.map (itemOps (stepOf m))).flatten).take n')).sum) ∧
    (∀ n, (addsOf (((m.map (itemOps (stepOf m))).flatten).take n)).sum ≤ 1) := by
  have hall : ∀ q : ℚ,
      BatchOp.addProgress q ∈ (m.map (itemOps (stepOf m))).flatten →
        q = stepOf m := by
    intro q hq
    have hq2 : q ∈ addsOf ((m.map (itemOps (stepOf m))).flatten) :=
      (mem_addsOf _ q).mpr hq
    rw [addsOf_itemops_flatten] at hq2
    exact List.eq_of_mem_replicate hq2
  have hnonneg : ∀ (l : List BatchOp),
      (∀ op ∈ l, op ∈ (m.map (itemOps (stepOf m))).flatten) →
        0 ≤ (addsOf l).sum := by
    intro l hsub
    refine List.sum_nonneg ?_
    intro q hq
    have hmem : BatchOp.addProgress q ∈ l := (mem_addsOf _ q).mp hq
    rw [hall q (hsub _ hmem)]
    exact stepOf_nonneg m
  constructor
  · intro n n' h
    have hdc : ((m.map (itemOps (stepOf m))).flatten).take n' =
        ((m.map (itemOps (stepOf m))).flatten).take n ++
          (((m.map (itemOps (stepOf m))).flatten).take n').drop n := by
      conv_lhs =>
        rw [← List.take_append_drop n
          (((m.map (itemOps (stepOf m))).flatten).take n')]
      rw [List.take_take, min_eq_left h]
    rw [hdc, addsOf_append, List.sum_append]
    refine le_add_of_nonneg_right (hnonneg _ ?_)
    intro op hop
    exact List.take_subset n' _ (List.drop_subset _ _ hop)
  · intro n
    have hsplit : (addsOf ((m.map (itemOps (stepOf m))).flatten)).sum =
        (addsOf (((m.map (itemOps (stepOf m))).flatten).take n)).sum +
        (addsOf (((m.map (itemOps (stepOf m))).flatten).drop n)).sum := by
      conv_lhs =>
        rw [← List.take_append_drop n ((m.map (itemOps (stepOf m))).flatten)]
      rw [addsOf_append, List.sum_append]
    have htotal := sum_addsOf_itemops m hm
    have hdropn : 0 ≤ (addsOf (((m.map (itemOps (stepOf m))).flatten).drop n)).sum :=
      hnonneg _ (fun op hop => List.drop_subset _ _ hop)
    rw [hsplit] at htotal
    linarith

end PaddleOcrWeb

namespace PaddleOcrWeb

theorem length_JF (m : List FileItem) :
    ((m.map (itemOps (stepOf m))).flatten ++ finishOps).length =
      3 * m.length + 3 := by
  rw [List.length_append, length_itemops_flatten]
  rfl

theorem jobops_JF (m : List FileItem) :
    ∀ op ∈ (m.map (itemOps (stepOf m))).flatten ++ finishOps,
      op.isJobOp = true := by
  intro op hop
  rcases List.mem_append.mp hop with h1 | h2
  · exact jobops_flatten _ m op h1
  · exact finishOps_jobop op h2

/-- The job's progress after the first n job-mutating ops: the sum of the
increments executed so far during the item phase, and exactly 1 from the
final hard-set onwards. -/
theorem foldl_JF_progress (m : List FileItem) (hm : m ≠ []) :
    (∀ n, n ≤ 3 * m.length →
      ((((m.map (itemOps (stepOf m))).flatten ++ finishOps).take n).foldl
          applyJob Job.init).progress =
        (addsOf (((m.map (itemOps (stepOf m))).flatten).take n)).sum) ∧
    (∀ n, 3 * m.length < n →
      ((((m.map (itemOps (stepOf m))).flatten ++ finishOps).take n).foldl
          applyJob Job.init).progress = 1) := by
  constructor
  · intro n hn
    have hle : n ≤ ((m.map (itemOps (stepOf m))).flatten).length := by
      rw [length_itemops_flatten]
      exact hn
    have htake : ((m.map (itemOps (stepOf m))).flatten ++ finishOps).take n =
        ((m.map (itemOps (stepOf m))).flatten).take n := by
      rw [List.take_append_eq_append_take, Nat.sub_eq_zero_of_le hle,
        List.take_zero, List.append_nil]
    rw [htake, foldl_progress_no_set _ Job.init (fun q hq =>
      no_setProgress_itemops (stepOf m) m q (List.take_subset n _ hq))]
    simp [Job.init]
  · intro n hn
    have hge : ((m.map (itemOps (stepOf m))).flatten).length ≤ n := by
      rw [length_itemops_flatten]
      omega
    have htake : ((m.map (itemOps (stepOf m))).flatten ++ finishOps).take n =
        (m.map (itemOps (stepOf m))).flatten ++
          finishOps.take
            (n - ((m.map (itemOps (stepOf m))).flatten).length) := by
      rw [List.take_append_eq_append_take, List.take_of_length_le hge]
    rw [htake, List.foldl_append]
    obtain ⟨d, hdd⟩ : ∃ d,
        n - ((m.map (itemOps (stepOf m))).flatten).length = d + 1 := by
      refine ⟨n - ((m.map (itemOps (stepOf m))).flatten).length - 1, ?_⟩
      rw [length_itemops_flatten]
      omega
    rw [hdd]
    cases d with
    | zero => rfl
    | succ d1 =>
      cases d1 with
      | zero => rfl
      | succ d2 =>
        rw [List.take_of_length_le
          (by simp only [finishOps, List.length_cons, List.length_nil]; omega)]
        rfl

/-- What a poller observes after n operations is the fold of the job-op
prefix: the cleanup ops at the tail never change the job. -/
theorem progressAt_eq_foldl (m : List FileItem) (uid : Nat) (s : ServerState)
    (hj : lookupJob s.jobs uid = some Job.init) (n : Nat) :
    progressAt m uid s n =
      ((((m.map (itemOps (stepOf m))).flatten ++ finishOps).take n).foldl
        applyJob Job.init).progress := by
  by_cases hn : n ≤ ((m.map (itemOps (stepOf m))).flatten ++ finishOps).length
  · have htake : (batchOps m).take n =
        ((m.map (itemOps (stepOf m))).flatten ++ finishOps).take n := by
      have hb : batchOps m =
          ((m.map (itemOps (stepOf m))).flatten ++ finishOps) ++ cleanupOps m :=
        rfl
      rw [hb, List.take_append_eq_append_take, Nat.sub_eq_zero_of_le hn,
        List.take_zero, List.append_nil]
    have hsub : ∀ op ∈ ((m.map (itemOps (stepOf m))).flatten ++ finishOps).take n,
        op.isJobOp = true :=
      fun op h => jobops_JF m op (List.take_subset n _ h)
    obtain ⟨js, hrun, hlook, -⟩ := runOps_jobops uid _ hsub s Job.init hj
    rw [progressAt, htake, hrun]
    simp only [hlook]
  · push_neg at hn
    have htake : (batchOps m).take n =
        ((m.map (itemOps (stepOf m))).flatten ++ finishOps) ++
          (cleanupOps m).take
            (n - ((m.map (itemOps (stepOf m))).flatten ++ finishOps).length) := by
      have hb : batchOps m =
          ((m.map (itemOps (stepOf m))).flatten ++ finishOps) ++ cleanupOps m :=
        rfl
      rw [hb, List.take_append_eq_append_take,
        List.take_of_length_le (Nat.le_of_lt hn)]
    obtain ⟨js, hrun, hlook, -⟩ :=
      runOps_jobops uid _ (jobops_JF m) s Job.init hj
    have hct : (cleanupOps m).take
          (n - ((m.map (itemOps (stepOf m))).flatten ++ finishOps).length) =
        cleanupOps (m.take
          (n - ((m.map (itemOps (stepOf m))).flatten ++ finishOps).length)) :=
      (List.map_take (fun it => BatchOp.unlink it.path) m _).symm
    rw [progressAt, htake, runOps_append, hrun]
    simp only [if_true]
    rw [hct, runOps_cleanup]
    simp only [hlook]
    rw [List.take_of_length_le (Nat.le_of_lt hn)]

/-! ### C7: progress is monotonically non-decreasing -/

/-- C7: within one freshly created job, the progress a poller observes after
any prefix of the batch runner's operations never decreases as the run
advances: the op sequence contains exactly one increment per item, each of
size `stepOf m = 1/k`, the op right after the k-th item hard-sets progress
to exactly 1, and the progress observed from then on (in particular at the
end of the run) is exactly 1. -/
theorem progress_monotone (m : List FileItem) (hm : m ≠ []) (uid : Nat)
    (s : ServerState) (hj : lookupJob s.jobs uid = some Job.init) :
    (∀ n n', n ≤ n' → progressAt m uid s n ≤ progressAt m uid s n') ∧
    addsOf (batchOps m) = List.replicate m.length (stepOf m) ∧
    stepOf m = 1 / (m.length : ℚ) ∧
    (batchOps m)[3 * m.length]? = some (BatchOp.setProgress 1) ∧
    progressAt m uid s ((batchOps m).length) = 1 := by
  obtain ⟨hreg1, hreg2⟩ := foldl_JF_progress m hm
  obtain ⟨hmono, hbound⟩ := addsOf_take_sum_facts m hm
  have hPA := progressAt_eq_foldl m uid s hj
  refine ⟨?_, ?_, rfl, ?_, ?_⟩
  · intro n n' h
    rw [hPA n, hPA n']
    by_cases hn' : n' ≤ 3 * m.length
    · rw [hreg1 n (le_trans h hn'), hreg1 n' hn']
      exact hmono n n' h
    · push_neg at hn'
      rw [hreg2 n' hn']
      by_cases hn : n ≤ 3 * m.length
      · rw [hreg1 n hn]
        exact hbound n
      · push_neg at hn
        rw [hreg2 n hn]
  · have hb : batchOps m = (m.map (itemOps (stepOf m))).flatten ++
        (finishOps ++ cleanupOps m) := by
      rw [batchOps, List.append_assoc]
    rw [hb, addsOf_append, addsOf_append, addsOf_itemops_flatten,
      addsOf_cleanup]
    simp [addsOf, finishOps]
  · have hb : batchOps m = (m.map (itemOps (stepOf m))).flatten ++
        (finishOps ++ cleanupOps m) := by
      rw [batchOps, List.append_assoc]
    rw [hb, List.getElem?_append_right
      (le_of_eq (length_itemops_flatten m)), length_itemops_flatten]
    simp [finishOps]
  · have hlb : 3 * m.length < (batchOps m).length := by
      have h1 : (batchOps m).length =
          ((m.map (itemOps (stepOf m))).flatten).length + finishOps.length
            + (cleanupOps m).length := by
        rw [batchOps, List.length_append, List.length_append]
      have h2 : finishOps.length = 3 := rfl
      rw [h1, length_itemops_flatten, h2]
      omega
    rw [hPA]
    exact hreg2 _ hlb

/-- Witness for C7 on a concrete one-item batch. -/
theorem progress_monotone_witness :
    ([⟨"a", "p1", OcrOutcome.err⟩] : List FileItem) ≠ [] ∧
    lookupJob [(0, Job.init)] 0 = some Job.init ∧
    ((∀ n n', n ≤ n' →
      progressAt [⟨"a", "p1", OcrOutcome.err⟩] 0 ⟨[(0, Job.init)], ["p1"]⟩ n ≤
      progressAt [⟨"a", "p1", OcrOutcome.err⟩] 0 ⟨[(0, Job.init)], ["p1"]⟩ n') ∧
    addsOf (batchOps [⟨"a", "p1", OcrOutcome.err⟩]) =
      List.replicate ([⟨"a", "p1", OcrOutcome.err⟩] : List FileItem).length
        (stepOf [⟨"a", "p1", OcrOutcome.err⟩]) ∧
    stepOf [⟨"a", "p1", OcrOutcome.err⟩] =
      1 / ((([⟨"a", "p1", OcrOutcome.err⟩] : List FileItem).length : ℚ)) ∧
    (batchOps [⟨"a", "p1", OcrOutcome.err⟩])[3 *
        ([⟨"a", "p1", OcrOutcome.err⟩] : List FileItem).length]? =
      some (BatchOp.setProgress 1) ∧
    progressAt [⟨"a", "p1", OcrOutcome.err⟩] 0 ⟨[(0, Job.init)], ["p1"]⟩
      ((batchOps [⟨"a", "p1", OcrOutcome.err⟩]).length) = 1) :=
  ⟨by decide, rfl,
    progress_monotone [⟨"a", "p1", OcrOutcome.err⟩] (by decide) 0
      ⟨[(0, Job.init)], ["p1"]⟩ rfl⟩

end PaddleOcrWeb
